import Mathlib

/-!
Verification of the natural-language specification of a post-quantum TLS
handshake engine against a shallow embedding of the repository's code.

The repository's own C files are test drivers and demo client/server
programs calling an external cryptographic library; the specification
reconstructs the engine those drivers exercise (Sponge Engine, KEM
Primitive, Key Schedule, Handshake State Machine).  The engine itself is
not under the repository's source tree, so those components are modelled
here from the specification's words; the glue code that is present
(the test `main`, the embedded I/O callbacks, the client message loop)
is embedded directly from the C sources.
-/

namespace Spec2Proof

/-! ## Sponge Engine core (§4.1)

Modelled from the spec: the Sponge Engine is a fixed-width
permutation-based state machine with an 8-byte rate and a wider
capacity; the concrete permutation of the external library is not in
the repository, so a concrete Ascon-flavoured round (constant addition,
chi-style nonlinear layer, rotation-based linear diffusion on five
64-bit words) stands in for it.  All machine words are `Nat` reduced
modulo `2 ^ 64`. -/

/-- `2 ^ 64`, the modulus of the sponge's machine words. -/
def M64 : Nat := 18446744073709551616

/-- Rotate a 64-bit word (represented as a `Nat` below `M64`) right by `n`. -/
def rotr (x n : Nat) : Nat := ((x >>> n) ||| (x <<< (64 - n))) % M64

/-- The five 64-bit words of the sponge state: word `x0` is the rate,
`x1`–`x4` the capacity. -/
structure SpWords where
  x0 : Nat
  x1 : Nat
  x2 : Nat
  x3 : Nat
  x4 : Nat
deriving DecidableEq

/-- One Ascon-flavoured round of the sponge permutation: round-constant
addition into `x2`, a chi-style nonlinear substitution across the words,
then rotation-based linear diffusion of every word. -/
def perm (s : SpWords) : SpWords :=
  let a2 := s.x2 ^^^ 240
  let b0 := s.x0 ^^^ s.x4
  let b2 := a2 ^^^ s.x1
  let b4 := s.x4 ^^^ s.x3
  let nx y z := ((M64 - 1) ^^^ y) &&& z
  let c0 := b0 ^^^ nx s.x1 b2
  let c1 := s.x1 ^^^ nx b2 s.x3
  let c2 := b2 ^^^ nx s.x3 b4
  let c3 := s.x3 ^^^ nx b4 b0
  let c4 := b4 ^^^ nx b0 s.x1
  let d1 := c1 ^^^ c0
  let d0 := c0 ^^^ c4
  let d3 := c3 ^^^ c2
  let d2 := ((M64 - 1) ^^^ c2) % M64
  ⟨(d0 ^^^ rotr d0 19 ^^^ rotr d0 28) % M64,
   (d1 ^^^ rotr d1 61 ^^^ rotr d1 39) % M64,
   (d2 ^^^ rotr d2 1 ^^^ rotr d2 6) % M64,
   (d3 ^^^ rotr d3 10 ^^^ rotr d3 17) % M64,
   (c4 ^^^ rotr c4 7 ^^^ rotr c4 41) % M64⟩

/-- The initialization vector the spec's `init()` resets the state to. -/
def ivWords : SpWords := ⟨4406636962521088, 0, 0, 0, 0⟩

/-- Load eight bytes into a 64-bit word, least-significant byte first. -/
def loadWord (b : List Nat) : Nat := b.foldr (fun byte acc => byte % 256 + 256 * acc) 0

/-- Split a 64-bit word into its eight bytes, least-significant first. -/
def wordBytes (w : Nat) : List Nat :=
  [w % 256, (w >>> 8) % 256, (w >>> 16) % 256, (w >>> 24) % 256,
   (w >>> 32) % 256, (w >>> 40) % 256, (w >>> 48) % 256, (w >>> 56) % 256]

/-- XOR an 8-byte block into the rate word of the state. -/
def xorRate (s : SpWords) (w : Nat) : SpWords :=
  ⟨(s.x0 ^^^ w) % M64, s.x1, s.x2, s.x3, s.x4⟩

/-- Absorb every full 8-byte block of `data` into the state, applying the
permutation after each block (spec §4.1); returns the new state and the
leftover bytes (fewer than eight) that did not fill a block. -/
def absorbChunks : List Nat → SpWords → SpWords × List Nat
  | b0 :: b1 :: b2 :: b3 :: b4 :: b5 :: b6 :: b7 :: rest, s =>
      absorbChunks rest (perm (xorRate s (loadWord [b0, b1, b2, b3, b4, b5, b6, b7])))
  | data, s => (s, data)

/-- Core sponge state while absorbing: the permutation words plus the
buffered partial block. -/
structure SpCore where
  words : SpWords
  buf : List Nat
deriving DecidableEq

/-- The core state `init()` produces: IV words, empty buffer. -/
def ivCore : SpCore := ⟨ivWords, []⟩

/-- Streaming absorb on the core: the buffered bytes are prepended to the
new data and every full block is absorbed. -/
def coreAbsorb (data : List Nat) (c : SpCore) : SpCore :=
  let r := absorbChunks (c.buf ++ data) c.words
  ⟨r.1, r.2⟩

/-- Domain padding on the last partial block (a `1` byte then zeros up to
the 8-byte rate), absorbed to close the absorb phase. -/
def coreFinalize (c : SpCore) : SpWords :=
  (absorbChunks (c.buf ++ 1 :: List.replicate (7 - c.buf.length % 8) 0) c.words).1

/-- Squeeze `k` rate blocks from the state, applying the permutation
between output blocks (spec §4.1). -/
def squeezeBlocks : Nat → SpWords → List Nat × SpWords
  | 0, s => ([], s)
  | k + 1, s =>
      let rest := squeezeBlocks k (perm s)
      (wordBytes s.x0 ++ rest.1, rest.2)

/-- Squeeze exactly `n` bytes from a finalized state. -/
def coreSqueeze (n : Nat) (s : SpWords) : List Nat × SpWords :=
  let r := squeezeBlocks ((n + 7) / 8) s
  (r.1.take n, r.2)

/-- The sponge used as an XOF over a single byte string: init, absorb
all of `data`, pad, and squeeze `n` bytes.  This is the primitive the
KEM and the Key Schedule call into (spec §4.2, §4.3). -/
def xofBytes (n : Nat) (data : List Nat) : List Nat :=
  (coreSqueeze n (coreFinalize (coreAbsorb data ivCore))).1

/-! ## Sponge Engine phased API (§4.1)

Modelled from the spec: a phase flag {ABSORBING, SQUEEZING}; `absorb`
fails with `InvalidState` once squeezing has begun; `squeeze` performs
the irreversible phase transition; `clear` zeroes the state
unconditionally. -/

/-- The phase flag of the sponge state. -/
inductive Phase where
  | absorbing
  | squeezing
deriving DecidableEq

/-- Errors of the Sponge Engine API. -/
inductive SpongeError where
  | invalidState
deriving DecidableEq

/-- A sponge state as exposed by the API: core state plus phase flag. -/
structure XofState where
  core : SpCore
  phase : Phase
deriving DecidableEq

/-- Modelled from the spec (the Sponge Engine is in the external library): `init()`: reset the state to the initialization vector, absorbing phase. -/
def initXof : XofState := ⟨ivCore, .absorbing⟩

/-- Modelled from the spec (the Sponge Engine is in the external library): `absorb(bytes)`: XOR the input block-wise into the rate and permute
after each full block; fails with `InvalidState` after squeezing has
begun. -/
def absorb (st : XofState) (data : List Nat) : Except SpongeError XofState :=
  match st.phase with
  | .squeezing => .error .invalidState
  | .absorbing => .ok ⟨coreAbsorb data st.core, .absorbing⟩

/-- Modelled from the spec (the Sponge Engine is in the external library): `squeeze(n)`: extract `n` bytes; the first squeeze pads the buffered
input and irreversibly moves the state to the squeezing phase. -/
def squeeze (st : XofState) (n : Nat) : List Nat × XofState :=
  match st.phase with
  | .absorbing =>
      let r := coreSqueeze n (coreFinalize st.core)
      (r.1, ⟨⟨r.2, []⟩, .squeezing⟩)
  | .squeezing =>
      let r := coreSqueeze n st.core.words
      (r.1, ⟨⟨r.2, []⟩, .squeezing⟩)

/-- Modelled from the spec (the Sponge Engine is in the external library): `clear()`: zero all state unconditionally. -/
def clearXof (_st : XofState) : XofState := ⟨⟨⟨0, 0, 0, 0, 0⟩, []⟩, .absorbing⟩

/-- A whole sponge run: init, a sequence of absorb calls, one squeeze of
`n` bytes (the Sponge Engine run the determinism property quantifies
over). -/
def xofRun (calls : List (List Nat)) (n : Nat) : Except SpongeError (List Nat) := do
  let s ← calls.foldlM absorb initXof
  pure (squeeze s n).1

/-! ## KEM Primitive (§4.2)

Modelled from the spec: the lattice-based KEM algorithm itself is in the
external library; this model keeps the spec's interface (fixed sizes per
parameter set, a 32-byte shared secret, length validation, and the
Fujisaki–Okamoto implicit-rejection structure of decapsulation: recover
the message, re-encrypt, and on mismatch derive the secret from the
secret key's rejection value and the ciphertext), with the Sponge
Engine as the internal XOF. -/

/-- The three parameter sets of the KEM (spec §3). -/
inductive ParamSet where
  | p512
  | p768
  | p1024
deriving DecidableEq

/-- Public-key length per parameter set (the sizes the repository's test
buffers use). -/
def pkLen : ParamSet → Nat
  | .p512 => 800
  | .p768 => 1184
  | .p1024 => 1568

/-- Secret-key length per parameter set. -/
def skLen : ParamSet → Nat
  | .p512 => 1632
  | .p768 => 2400
  | .p1024 => 3168

/-- Ciphertext length per parameter set. -/
def ctLen : ParamSet → Nat
  | .p512 => 768
  | .p768 => 1088
  | .p1024 => 1568

/-- Length of the secret decryption part stored at the front of the
secret key (the rest is the public key, its hash, and the 32-byte
rejection value `z`). -/
def sLen (ps : ParamSet) : Nat := skLen ps - pkLen ps - 64

/-- The fixed 32-byte shared-secret length (spec §3). -/
def ssLen : Nat := 32

/-- Errors of the KEM Primitive (spec §4.2). -/
inductive KemError where
  | insufficientRandomness
  | invalidPublicKey
  | invalidCiphertext
deriving DecidableEq

/-- Byte-wise XOR of two byte strings. -/
def xorBytes (a b : List Nat) : List Nat := List.zipWith (fun x y => x ^^^ y) a b

/-- Modelled from the spec (the KEM algorithm is in the external library): `generateKeyPair(parameterSet, randomness)`: expand the random seed
through the XOF into the full key material; the secret key carries the
decryption part, the public key, the public key's hash, and the 32-byte
rejection value `z`; fails with `InsufficientRandomness` when the
supplied randomness is shorter than a 32-byte seed. -/
def generateKeyPair (ps : ParamSet) (randomness : List Nat) :
    Except KemError (List Nat × List Nat) :=
  if randomness.length < 32 then .error .insufficientRandomness
  else
    let pk := xofBytes (pkLen ps) (2 :: randomness)
    let s := xofBytes (sLen ps) (1 :: randomness)
    let h := xofBytes 32 (8 :: pk)
    let z := xofBytes 32 (9 :: randomness)
    .ok (pk, s ++ pk ++ (h ++ z))

/-- The deterministic encryption of a 32-byte message under a public
key: the message masked by a key-derived pad, followed by
message-and-key-derived filler bytes up to the ciphertext length (the
filler is what re-encryption checks during decapsulation). -/
def encBody (ps : ParamSet) (pk m : List Nat) : List Nat :=
  xorBytes m (xofBytes 32 (3 :: pk)) ++ xofBytes (ctLen ps - 32) (4 :: (pk ++ m))

/-- Modelled from the spec (the KEM algorithm is in the external library): `encapsulate(publicKey, randomness)`: validate the public-key length
against the parameter set, failing with `InvalidPublicKey` on mismatch;
otherwise derive the message from the randomness, encrypt it, and hash
message and public key into the shared secret (deterministic given the
same randomness). -/
def encapsulate (ps : ParamSet) (pk r : List Nat) :
    Except KemError (List Nat × List Nat) :=
  if pk.length = pkLen ps then
    let m := xofBytes 32 (5 :: r)
    .ok (encBody ps pk m, xofBytes 32 (6 :: (m ++ pk)))
  else .error .invalidPublicKey

/-- The public key embedded in a secret key. -/
def skPk (ps : ParamSet) (sk : List Nat) : List Nat := (sk.drop (sLen ps)).take (pkLen ps)

/-- The rejection value `z` embedded in a secret key. -/
def skZ (ps : ParamSet) (sk : List Nat) : List Nat :=
  (sk.drop (sLen ps + pkLen ps + 32)).take 32

/-- The shared secret decapsulation computes for a correct-length
ciphertext: recover the message through the key-derived pad, re-encrypt
it, and on match hash message and public key; on mismatch (a malformed
or tampered ciphertext) hash the rejection value `z` and the ciphertext
instead — the implicit-rejection path, a pure function of the secret key
and the ciphertext. -/
def decapSS (ps : ParamSet) (sk ct : List Nat) : List Nat :=
  let pk := skPk ps sk
  let m := xorBytes (ct.take 32) (xofBytes 32 (3 :: pk))
  if encBody ps pk m = ct then xofBytes 32 (6 :: (m ++ pk))
  else xofBytes 32 (7 :: (skZ ps sk ++ ct))

/-- Modelled from the spec (the KEM algorithm is in the external library): `decapsulate(secretKey, ciphertext)`: fails with `InvalidCiphertext`
only on a ciphertext-length mismatch; every correct-length ciphertext —
well-formed or tampered — structurally succeeds with the deterministic
shared secret of `decapSS` (implicit rejection, spec §4.2). -/
def decapsulate (ps : ParamSet) (sk ct : List Nat) : Except KemError (List Nat) :=
  if ct.length = ctLen ps then .ok (decapSS ps sk ct) else .error .invalidCiphertext

/-! ## Key Schedule (§4.3)

Modelled from the spec: `deriveSecrets(sharedSecret, transcriptHash,
label)` absorbs `sharedSecret ‖ transcriptHash ‖ label` into the XOF and
squeezes the required length, split into the handshake and application
traffic keys. -/

/-- The derived traffic keys. -/
structure DerivedKeys where
  handshakeTrafficKey : List Nat
  applicationTrafficKey : List Nat
deriving DecidableEq

/-- Modelled from the spec (the Key Schedule is in the external library): `deriveSecrets(sharedSecret, transcriptHash, label)`: XOF over the
concatenation, 64 bytes squeezed and split into two 32-byte keys. -/
def deriveSecrets (sharedSecret transcriptHash label : List Nat) : DerivedKeys :=
  let out := xofBytes 64 (sharedSecret ++ transcriptHash ++ label)
  ⟨out.take 32, out.drop 32⟩

/-- The label under which handshake-phase secrets are derived. -/
def labelHs : List Nat := [104, 115]

/-- The label under which application-phase secrets are derived. -/
def labelApp : List Nat := [97, 112]

/-! ## Handshake State Machine (§4.4, §7)

Modelled from the spec: states `START → KEY_SHARE_SENT →
KEY_SHARE_RECEIVED → SECRETS_DERIVED → FINISHED_VERIFIED → ESTABLISHED`
with a terminal `ABORTED`; any format violation, length mismatch or
Finished-verification failure aborts, zeroing all derived secrets; an
aborted session discards every further delivered message. -/

/-- The role of a session end. -/
inductive Role where
  | client
  | server
deriving DecidableEq

/-- The fatal error taxonomy of spec §7. -/
inductive HsError where
  | formatError
  | cryptoFailure
  | authenticationFailure
  | resourceExhaustion
deriving DecidableEq

/-- The handshake states of spec §4.4. -/
inductive HsState where
  | start
  | keyShareSent
  | keyShareReceived
  | secretsDerived
  | finishedVerified
  | established
  | aborted
deriving DecidableEq

/-- Handshake wire messages: ClientHello carries {parameterSet tag,
public key}, ServerHello carries {parameterSet tag, ciphertext}, and
Finished carries the transcript MAC (spec §6). -/
inductive Msg where
  | clientHello (ps : ParamSet) (pk : List Nat)
  | serverHello (ps : ParamSet) (ct : List Nat)
  | finished (tag : List Nat)
deriving DecidableEq

/-- A handshake session (spec §3): role, state, negotiated parameter
set, session randomness, own key pair, peer public key, shared secret,
derived keys and the running transcript. -/
structure Session where
  role : Role
  ps : ParamSet
  state : HsState
  rand : List Nat
  kemPk : Option (List Nat)
  kemSk : Option (List Nat)
  peerPk : Option (List Nat)
  sharedSecret : Option (List Nat)
  keys : Option DerivedKeys
  transcript : List Nat
deriving DecidableEq

/-- The result of delivering one message to a session: the new session,
the messages to send, and the fatal error, if any. -/
structure StepResult where
  session : Session
  out : List Msg
  err : Option HsError
deriving DecidableEq

/-- Abort a session: terminal `ABORTED` state, every derived secret
(secret key, shared secret, traffic keys) zeroed before the error is
returned to the caller (spec §7). -/
def abortWith (s : Session) (e : HsError) : StepResult :=
  ⟨{ s with state := .aborted, kemSk := none, sharedSecret := none, keys := none }, [], some e⟩

/-- A fresh server session for a negotiated parameter set. -/
def serverInit (ps : ParamSet) (rand : List Nat) : Session :=
  ⟨.server, ps, .start, rand, none, none, none, none, none, []⟩

/-- The Finished MAC over the transcript under the handshake traffic
key (the transcript-MAC check the spec flags as required before
`ESTABLISHED`). -/
def finTag (ks : DerivedKeys) (transcript : List Nat) : List Nat :=
  xofBytes 32 (ks.handshakeTrafficKey ++ transcript)

/-- Modelled from the spec (the TLS state machine is in the external library): deliver one handshake message to a session (the spec's synchronous step function).  An aborted session processes nothing and discards the
bytes; a server in `START` validates the ClientHello key share's
parameter set and public-key length (aborting with `FormatError` on
mismatch, before any secret is derived), encapsulates, and derives
secrets; a client in `KEY_SHARE_SENT` validates the ServerHello
ciphertext length, decapsulates, and derives secrets; `SECRETS_DERIVED`
verifies the Finished MAC, aborting with `AuthenticationFailure` when
it fails; every other message is a protocol violation and aborts with
`FormatError`. -/
def step (s : Session) (m : Msg) : StepResult :=
  if s.state = .aborted then ⟨s, [], none⟩
  else
    match s.role, s.state, m with
    | .server, .start, .clientHello ps' pk =>
        if ps' ≠ s.ps then abortWith s .formatError
        else if pk.length ≠ pkLen s.ps then abortWith s .formatError
        else
          match encapsulate s.ps pk s.rand with
          | .error _ => abortWith s .cryptoFailure
          | .ok (ct, ss) =>
              let tr := s.transcript ++ 1 :: pk
              let ks := deriveSecrets ss (xofBytes 32 tr) labelHs
              ⟨{ s with
                  state := .secretsDerived
                  peerPk := some pk
                  sharedSecret := some ss
                  keys := some ks
                  transcript := tr ++ 2 :: ct }, [.serverHello s.ps ct], none⟩
    | .client, .keyShareSent, .serverHello ps' ct =>
        if ps' ≠ s.ps then abortWith s .formatError
        else if ct.length ≠ ctLen s.ps then abortWith s .formatError
        else
          match s.kemSk with
          | none => abortWith s .cryptoFailure
          | some sk =>
              match decapsulate s.ps sk ct with
              | .error _ => abortWith s .formatError
              | .ok ss =>
                  let tr := s.transcript ++ 2 :: ct
                  let ks := deriveSecrets ss (xofBytes 32 tr) labelHs
                  ⟨{ s with
                      state := .secretsDerived
                      sharedSecret := some ss
                      keys := some ks
                      transcript := tr }, [], none⟩
    | _, .secretsDerived, .finished tag =>
        match s.keys with
        | none => abortWith s .cryptoFailure
        | some ks =>
            if tag = finTag ks s.transcript then
              ⟨{ s with state := .finishedVerified }, [], none⟩
            else abortWith s .authenticationFailure
    | _, _, _ => abortWith s .formatError

/-- Deliver a whole sequence of messages, keeping only the session. -/
def stepMsgs (s : Session) (msgs : List Msg) : Session :=
  msgs.foldl (fun st m => (step st m).session) s

/-! ## Embeddings from the repository's C sources -/

/-- The exit status of `main` in `test_mlkem512_handshake.c` as a
function of the two subtest results `ret1` (handshake simulation) and
`ret2` (Ascon verification): `0` when both are `0`, else `1`
(lines 192–201). -/
def mainResult (ret1 ret2 : Int) : Int :=
  if ret1 = 0 ∧ ret2 = 0 then 0 else 1

/-- The value an embedded transport callback of
`cortex_m4_tls_client.c` hands back to the TLS core: one of the
`WOLFSSL_CBIO_ERR_*` sentinels or a positive byte count. -/
inductive CbioResult where
  | connClose
  | wantRead
  | wantWrite
  | byteCount (n : Int)
deriving DecidableEq

/-- `EmbedReceive` (cortex_m4_tls_client.c, lines 45–60) as a function
of the global `socket_fd` and the value `recv` would return:
`CONN_CLOSE` when no socket is connected, `WANT_READ` when `recv`
returns at most zero, otherwise the received byte count. -/
def embedReceive (socket_fd recvRet : Int) : CbioResult :=
  if socket_fd < 0 then .connClose
  else if recvRet ≤ 0 then .wantRead
  else .byteCount recvRet

/-- `EmbedSend` (cortex_m4_tls_client.c, lines 62–77) as a function of
the global `socket_fd` and the value `send` would return: `CONN_CLOSE`
when no socket is connected, `WANT_WRITE` when `send` returns at most
zero, otherwise the sent byte count. -/
def embedSend (socket_fd sendRet : Int) : CbioResult :=
  if socket_fd < 0 then .connClose
  else if sendRet ≤ 0 then .wantWrite
  else .byteCount sendRet

/-- `MAX_MESSAGE_LENGTH` of cortex_m4_tls_client.c. -/
def MAX_MESSAGE_LENGTH : Nat := 256

/-- The bytes of the string `quit`. -/
def quitBytes : List Nat := [113, 117, 105, 116]

/-- What one iteration of the client's interactive message loop does
with the entered line. -/
inductive LoopAction where
  | exitLoop
  | skipTooLong
  | send (payload : List Nat)
deriving DecidableEq

/-- One iteration of the interactive message loop of
`cortex_m4_tls_client.c` (lines 222–259) on the line read from the
user (newline already stripped): leave the loop on a `quit` prefix,
skip the line with a warning when it exceeds `MAX_MESSAGE_LENGTH`,
otherwise pass exactly the line to `wolfSSL_write`. -/
def loopStep (line : List Nat) : LoopAction :=
  if line.take 4 = quitBytes then .exitLoop
  else if line.length > MAX_MESSAGE_LENGTH then .skipTooLong
  else .send line

/-- Decidable equality of `Except` values, needed to evaluate the
fallible KEM operations on concrete inputs. -/
instance {ε α : Type} [DecidableEq ε] [DecidableEq α] : DecidableEq (Except ε α) := fun x y =>
  match x, y with
  | .ok a, .ok b =>
      if h : a = b then .isTrue (by rw [h]) else .isFalse (fun hc => h (Except.ok.inj hc))
  | .error e, .error f =>
      if h : e = f then .isTrue (by rw [h]) else .isFalse (fun hc => h (Except.error.inj hc))
  | .ok _, .error _ => .isFalse (fun hc => Except.noConfusion hc)
  | .error _, .ok _ => .isFalse (fun hc => Except.noConfusion hc)

/-! ## Concrete instances used to exercise the model -/

/-- A concrete 32-byte seed. -/
def seedW : List Nat := List.replicate 32 0

/-- The public key generated from `seedW` at parameter set 512. -/
def pkW : List Nat := xofBytes (pkLen .p512) (2 :: seedW)

/-- The secret key generated from `seedW` at parameter set 512. -/
def skW : List Nat :=
  xofBytes (sLen .p512) (1 :: seedW) ++ pkW ++ (xofBytes 32 (8 :: pkW) ++ xofBytes 32 (9 :: seedW))

/-- The ciphertext `encapsulate(pkW, [])` produces. -/
def ctW : List Nat := encBody .p512 pkW (xofBytes 32 (5 :: ([] : List Nat)))

/-- The shared secret `encapsulate(pkW, [])` produces. -/
def ssW : List Nat := xofBytes 32 (6 :: (xofBytes 32 (5 :: ([] : List Nat)) ++ pkW))

/-- A correct-length but malformed (all-zero) ciphertext for parameter
set 512. -/
def badCtW : List Nat := List.replicate (ctLen .p512) 0

/-- A concrete shared secret for exercising the key schedule. -/
def ssC6 : List Nat := List.replicate 32 170

/-- A concrete transcript hash for exercising the key schedule. -/
def thC6 : List Nat := List.replicate 32 187

/-- The 64 derivation-output bytes for a label, viewed as a function
into `Fin 256` (the codomain is finite, which is what forces label
collisions to exist). -/
def outFin (ss th label : List Nat) : Fin 64 → Fin 256 :=
  fun i => ⟨(xofBytes 64 (ss ++ th ++ label)).getD i 0 % 256, Nat.mod_lt _ (by omega)⟩

/-- A concrete session already in the terminal `ABORTED` state. -/
def sAbW : Session := ⟨.server, .p512, .aborted, [], none, none, none, none, none, []⟩

/-- A concrete in-flight message delivered to the aborted session. -/
def msgW : Msg := .finished []

/-! ## General lemmas about the sponge model -/

/-- Squeezing `k` blocks yields `8 * k` bytes. -/
theorem length_squeezeBlocks (k : Nat) (s : SpWords) : (squeezeBlocks k s).1.length = 8 * k := by
  induction k generalizing s with
  | zero => rfl
  | succ k ih =>
      simp only [squeezeBlocks, List.length_append, ih (perm s), wordBytes,
        List.length_cons, List.length_nil]
      omega

/-- The XOF emits exactly the requested number of bytes. -/
theorem length_xofBytes (n : Nat) (data : List Nat) : (xofBytes n data).length = n := by
  simp only [xofBytes, coreSqueeze, List.length_take, length_squeezeBlocks]
  omega

/-- Every byte a word splits into is below 256. -/
theorem mem_wordBytes_lt (w : Nat) : ∀ b ∈ wordBytes w, b < 256 := by
  intro b hb
  simp only [wordBytes, List.mem_cons, List.not_mem_nil, or_false] at hb
  rcases hb with h | h | h | h | h | h | h | h <;> subst h <;> exact Nat.mod_lt _ (by omega)

/-- Every squeezed byte is below 256. -/
theorem mem_squeezeBlocks_lt (k : Nat) (s : SpWords) :
    ∀ b ∈ (squeezeBlocks k s).1, b < 256 := by
  induction k generalizing s with
  | zero => intro b hb; simp [squeezeBlocks] at hb
  | succ k ih =>
      intro b hb
      simp only [squeezeBlocks, List.mem_append] at hb
      rcases hb with h | h
      · exact mem_wordBytes_lt s.x0 b h
      · exact ih (perm s) b h

/-- Every byte of the XOF output is below 256. -/
theorem mem_xofBytes_lt (n : Nat) (data : List Nat) : ∀ b ∈ xofBytes n data, b < 256 := by
  intro b hb
  exact mem_squeezeBlocks_lt _ _ b (List.mem_of_mem_take hb)

/-- Byte-wise XOR with the same pad twice is the identity on
equal-length strings. -/
theorem xorBytes_xorBytes (m p : List Nat) (h : m.length = p.length) :
    xorBytes (xorBytes m p) p = m := by
  induction m generalizing p with
  | nil => simp [xorBytes]
  | cons a m ih =>
      cases p with
      | nil => simp at h
      | cons b p =>
          simp only [xorBytes, List.zipWith_cons_cons, List.cons.injEq]
          exact ⟨by rw [Nat.xor_assoc, Nat.xor_self, Nat.xor_zero],
                 ih p (by simpa using h)⟩

/-- The length of a byte-wise XOR. -/
theorem length_xorBytes (a b : List Nat) : (xorBytes a b).length = min a.length b.length := by
  simp [xorBytes]

/-- Every parameter set has ciphertexts of at least the 32 mask bytes. -/
theorem ctLen_ge32 (ps : ParamSet) : 32 ≤ ctLen ps := by cases ps <;> simp [ctLen]

/-- The deterministic encryption produces exactly `ctLen ps` bytes. -/
theorem length_encBody (ps : ParamSet) (pk m : List Nat) (hm : m.length = 32) :
    (encBody ps pk m).length = ctLen ps := by
  have := ctLen_ge32 ps
  simp only [encBody, List.length_append, length_xorBytes, length_xofBytes, hm]
  omega

/-- A generated secret key embeds the matching public key at offset
`sLen ps`. -/
theorem skPk_generateKeyPair (ps : ParamSet) (seed pk sk : List Nat)
    (h : generateKeyPair ps seed = .ok (pk, sk)) : skPk ps sk = pk := by
  simp only [generateKeyPair] at h
  split at h
  · exact absurd h (by simp)
  · simp only [Except.ok.injEq, Prod.mk.injEq] at h
    obtain ⟨hpk, hsk⟩ := h
    subst hpk; subst hsk
    simp only [skPk]
    rw [List.append_assoc, List.drop_left' (length_xofBytes _ _),
      List.take_left' (length_xofBytes _ _)]

/-- A generated public key has the length of its parameter set. -/
theorem length_pk_generateKeyPair (ps : ParamSet) (seed pk sk : List Nat)
    (h : generateKeyPair ps seed = .ok (pk, sk)) : pk.length = pkLen ps := by
  simp only [generateKeyPair] at h
  split at h
  · exact absurd h (by simp)
  · simp only [Except.ok.injEq, Prod.mk.injEq] at h
    rw [← h.1, length_xofBytes]

/-- Claim C1: for every valid KEM key pair and every randomness input
`r`, decapsulating the ciphertext produced by `encapsulate(publicKey, r)`
with the secret key yields a shared secret bit-identical to the one that
encapsulation produced. -/
theorem kem_encapsulate_decapsulate_roundtrip
    (ps : ParamSet) (seed r pk sk ct ss : List Nat)
    (hkp : generateKeyPair ps seed = .ok (pk, sk))
    (henc : encapsulate ps pk r = .ok (ct, ss)) :
    decapsulate ps sk ct = .ok ss := by
  have hskpk := skPk_generateKeyPair ps seed pk sk hkp
  have hpklen := length_pk_generateKeyPair ps seed pk sk hkp
  simp only [encapsulate] at henc
  rw [if_pos hpklen] at henc
  simp only [Except.ok.injEq, Prod.mk.injEq] at henc
  obtain ⟨hct, hss⟩ := henc
  subst hct; subst hss
  have hm : (xofBytes 32 (5 :: r)).length = 32 := length_xofBytes _ _
  have hmask : (xorBytes (xofBytes 32 (5 :: r)) (xofBytes 32 (3 :: pk))).length = 32 := by
    simp [length_xorBytes, hm, length_xofBytes]
  simp only [decapsulate]
  rw [if_pos (length_encBody ps pk _ hm)]
  simp only [decapSS, hskpk]
  rw [show (encBody ps pk (xofBytes 32 (5 :: r))).take 32
        = xorBytes (xofBytes 32 (5 :: r)) (xofBytes 32 (3 :: pk)) by
      simp only [encBody]; exact List.take_left' hmask]
  rw [xorBytes_xorBytes _ _ (by rw [hm, length_xofBytes])]
  rw [if_pos rfl]

/-- Witness for C1: the round trip at the concrete seed `seedW` and
empty encapsulation randomness. -/
theorem kem_roundtrip_witness : decapsulate .p512 skW ctW = .ok ssW :=
  kem_encapsulate_decapsulate_roundtrip .p512 seedW [] pkW skW ctW ssW
    (by simp [generateKeyPair, seedW, pkW, skW])
    (by simp [encapsulate, pkW, length_xofBytes, ctW, ssW])

/-- Claim C2: decapsulation of any correct-length ciphertext — however
malformed or tampered — does not abort and raises no visible error: it
returns the 32-byte shared secret `decapSS`, a pure function of exactly
the secret key and the ciphertext (implicit rejection), so repeated
calls on the same inputs return the same output. -/
theorem kem_implicit_rejection (ps : ParamSet) (sk ct : List Nat)
    (hct : ct.length = ctLen ps) :
    decapsulate ps sk ct = .ok (decapSS ps sk ct) ∧
    (decapSS ps sk ct).length = ssLen ∧
    (∀ ct2, ct2 = ct → decapsulate ps sk ct2 = decapsulate ps sk ct) := by
  refine ⟨by simp [decapsulate, hct], ?_, fun ct2 h => by rw [h]⟩
  simp only [decapSS]
  split <;> simp [length_xofBytes, ssLen]

/-- Witness for C2: decapsulating the all-zero malformed ciphertext
`badCtW` under the concrete secret key `skW`. -/
theorem kem_implicit_rejection_witness :
    decapsulate .p512 skW badCtW = .ok (decapSS .p512 skW badCtW) ∧
    (decapSS .p512 skW badCtW).length = ssLen ∧
    (∀ ct2, ct2 = badCtW → decapsulate .p512 skW ct2 = decapsulate .p512 skW badCtW) :=
  kem_implicit_rejection .p512 skW badCtW (by simp [badCtW])

/-- Claim C3: squeeze output is a pure, deterministic function of all
previously absorbed input bytes and their order — two runs that init
and then perform the same sequence of absorb calls with the same bytes
produce identical squeeze output; the model is a pure function of the
absorbed bytes alone, so there is no hidden entropy. -/
theorem sponge_squeeze_deterministic (calls1 calls2 : List (List Nat)) (n1 n2 : Nat)
    (hc : calls1 = calls2) (hn : n1 = n2) : xofRun calls1 n1 = xofRun calls2 n2 := by
  subst hc; subst hn; rfl

/-- Witness for C3: two identical absorb sequences at concrete bytes. -/
theorem sponge_squeeze_deterministic_witness :
    xofRun [[1, 2], [3]] 16 = xofRun [[1, 2], [3]] 16 :=
  sponge_squeeze_deterministic [[1, 2], [3]] [[1, 2], [3]] 16 16 rfl rfl

/-- Claim C4: the sponge phase transition is irreversible — after any
squeeze, every absorb call on the resulting state fails with
`InvalidState`, while a state restarted via a fresh init absorbs
again. -/
theorem sponge_absorb_after_squeeze_rejected (st : XofState) (n : Nat) (d e : List Nat) :
    absorb (squeeze st n).2 d = .error .invalidState ∧
    (absorb initXof e).isOk = true := by
  obtain ⟨core, ph⟩ := st
  cases ph <;> exact ⟨rfl, rfl⟩

/-- Claim C5: a public key whose length does not match the parameter
set is rejected — `encapsulate` reports `InvalidPublicKey`, and a
server receiving such a ClientHello key share transitions to `ABORTED`
emitting `FormatError`, with no secrets derived. -/
theorem wrong_length_public_key_rejected (ps : ParamSet) (pk r rand : List Nat)
    (h : pk.length ≠ pkLen ps) :
    encapsulate ps pk r = .error .invalidPublicKey ∧
    (step (serverInit ps rand) (.clientHello ps pk)).session.state = .aborted ∧
    (step (serverInit ps rand) (.clientHello ps pk)).err = some .formatError ∧
    (step (serverInit ps rand) (.clientHello ps pk)).session.sharedSecret = none ∧
    (step (serverInit ps rand) (.clientHello ps pk)).session.keys = none := by
  refine ⟨by simp [encapsulate, h], ?_⟩
  simp [step, serverInit, abortWith, h]

/-- Witness for C5: an empty public key offered at parameter set 512. -/
theorem wrong_length_public_key_rejected_witness :
    encapsulate .p512 [] [] = .error .invalidPublicKey ∧
    (step (serverInit .p512 []) (.clientHello .p512 [])).session.state = .aborted ∧
    (step (serverInit .p512 []) (.clientHello .p512 [])).err = some .formatError ∧
    (step (serverInit .p512 []) (.clientHello .p512 [])).session.sharedSecret = none ∧
    (step (serverInit .p512 []) (.clientHello .p512 [])).session.keys = none :=
  wrong_length_public_key_rejected .p512 [] [] [] (by decide)

/-- Two lists of the same known length agreeing at every index are
equal. -/
theorem list_eq_of_getD_eq (n : Nat) (l1 l2 : List Nat) (h1 : l1.length = n)
    (h2 : l2.length = n) (h : ∀ i : Fin n, l1.getD i 0 = l2.getD i 0) : l1 = l2 := by
  apply List.ext_getElem (by rw [h1, h2])
  intro i hi1 hi2
  have hx := h ⟨i, by omega⟩
  rwa [List.getD_eq_getElem l1 0 hi1, List.getD_eq_getElem l2 0 hi2] at hx

/-- Equal finite views of the 64 derivation-output bytes force equal
output byte strings. -/
theorem xof64_eq_of_outFin_eq (ss th l1 l2 : List Nat)
    (h : outFin ss th l1 = outFin ss th l2) :
    xofBytes 64 (ss ++ th ++ l1) = xofBytes 64 (ss ++ th ++ l2) := by
  apply list_eq_of_getD_eq 64 _ _ (length_xofBytes _ _) (length_xofBytes _ _)
  intro i
  have hi := congrFun h i
  simp only [outFin, Fin.mk.injEq] at hi
  have hb1 : (xofBytes 64 (ss ++ th ++ l1)).getD i 0 < 256 := by
    have hlen := length_xofBytes 64 (ss ++ th ++ l1)
    rw [List.getD_eq_getElem _ 0 (by omega)]
    exact mem_xofBytes_lt _ _ _ (List.getElem_mem _)
  have hb2 : (xofBytes 64 (ss ++ th ++ l2)).getD i 0 < 256 := by
    have hlen := length_xofBytes 64 (ss ++ th ++ l2)
    rw [List.getD_eq_getElem _ 0 (by omega)]
    exact mem_xofBytes_lt _ _ _ (List.getElem_mem _)
  rwa [Nat.mod_eq_of_lt hb1, Nat.mod_eq_of_lt hb2] at hi

/-- Counterexample to C6 as stated: because the key schedule's output
is a fixed 64 bytes while labels range over all byte strings, the map
from labels to derived keys cannot be injective — at the concrete
session inputs `ssC6`, `thC6` there exist two distinct labels whose
derived keys are equal, refuting "for every pair … with distinct label
values, the derived keys are not equal". -/
theorem derive_label_universal_inequality_fails :
    ¬ ∀ l1 l2 : List Nat, l1 ≠ l2 →
      deriveSecrets ssC6 thC6 l1 ≠ deriveSecrets ssC6 thC6 l2 := by
  intro hall
  obtain ⟨x, y, hxy, heq⟩ := Finite.exists_ne_map_eq_of_infinite (outFin ssC6 thC6)
  have hout : deriveSecrets ssC6 thC6 x = deriveSecrets ssC6 thC6 y := by
    unfold deriveSecrets
    rw [xof64_eq_of_outFin_eq ssC6 thC6 x y heq]
  exact hall x y hxy hout

/-- Claim C6 (amended): the key schedule separates the label domains it
actually distinguishes — at identical shared secret and transcript
hash, the two distinct labels the schedule uses derive non-equal keys
(inequality for every conceivable label pair is impossible for a
fixed-length output, as the counterexample shows). -/
theorem derive_secrets_distinct_labels_separate :
    labelHs ≠ labelApp ∧
    deriveSecrets ssC6 thC6 labelHs ≠ deriveSecrets ssC6 thC6 labelApp := by
  constructor
  · decide
  · decide

/-- An aborted session ignores any delivered message. -/
theorem step_aborted (s : Session) (m : Msg) (h : s.state = .aborted) :
    step s m = ⟨s, [], none⟩ := by
  simp [step, h]

/-- An aborted session ignores any delivered message sequence. -/
theorem stepMsgs_aborted (s : Session) (msgs : List Msg) (h : s.state = .aborted) :
    stepMsgs s msgs = s := by
  induction msgs with
  | nil => rfl
  | cons m ms ih =>
      show stepMsgs (step s m).session ms = s
      rw [step_aborted s m h]
      exact ih

/-- Every result of `step` either carries no error or is an abort. -/
theorem step_result_shape (s : Session) (m : Msg) :
    (step s m).err = none ∨ ∃ e, step s m = abortWith s e := by
  unfold step
  repeat' split
  all_goals first
    | exact Or.inl rfl
    | exact Or.inr ⟨_, rfl⟩

/-- Claim C7: `ABORTED` is terminal — an aborted session processes no
further messages (delivered in-flight bytes are discarded without
effect), and whenever a step returns an error to the caller, the
session it returns is aborted with every derived secret zeroed. -/
theorem aborted_terminal_and_zeroized (s : Session) (m : Msg) (msgs : List Msg) :
    (s.state = .aborted → step s m = ⟨s, [], none⟩ ∧ stepMsgs s msgs = s) ∧
    (∀ e, (step s m).err = some e →
      (step s m).session.state = .aborted ∧
      (step s m).session.sharedSecret = none ∧
      (step s m).session.keys = none ∧
      (step s m).session.kemSk = none) := by
  constructor
  · intro h
    exact ⟨step_aborted s m h, stepMsgs_aborted s msgs h⟩
  · intro e he
    rcases step_result_shape s m with hn | ⟨e', habort⟩
    · rw [hn] at he; exact absurd he (by simp)
    · rw [habort]
      simp [abortWith]

/-- Witness for C7: a concrete aborted session discards two in-flight
messages. -/
theorem aborted_terminal_and_zeroized_witness :
    step sAbW msgW = ⟨sAbW, [], none⟩ ∧ stepMsgs sAbW [msgW, msgW] = sAbW :=
  (aborted_terminal_and_zeroized sAbW msgW [msgW, msgW]).1 rfl

/-- Claim C8: `main` of test_mlkem512_handshake.c exits with status 0
exactly when both the handshake-simulation subtest and the Ascon
verification subtest return 0, and exits with status 1 when either
returns nonzero. -/
theorem main_exit_status (r1 r2 : Int) :
    (mainResult r1 r2 = 0 ↔ r1 = 0 ∧ r2 = 0) ∧
    (¬(r1 = 0 ∧ r2 = 0) → mainResult r1 r2 = 1) := by
  by_cases h : r1 = 0 ∧ r2 = 0 <;> simp [mainResult, h]

/-- Witness for C8: a failing first subtest exits with status 1. -/
theorem main_exit_status_witness : mainResult (-1) 0 = 1 :=
  (main_exit_status (-1) 0).2 (by decide)

/-- Claim C9: the embedded transport callbacks never hand a raw OS
error code to the TLS core — with no socket connected both return
`CONN_CLOSE`; when `recv`/`send` return at most zero they return
`WANT_READ`/`WANT_WRITE` respectively; otherwise they return the
positive byte count, and any byte count they return is positive. -/
theorem embed_callbacks_translate_errors (fd r : Int) :
    (fd < 0 → embedReceive fd r = .connClose ∧ embedSend fd r = .connClose) ∧
    (0 ≤ fd → r ≤ 0 → embedReceive fd r = .wantRead ∧ embedSend fd r = .wantWrite) ∧
    (0 ≤ fd → 0 < r → embedReceive fd r = .byteCount r ∧ embedSend fd r = .byteCount r) ∧
    (∀ n, embedReceive fd r = .byteCount n → 0 < n) ∧
    (∀ n, embedSend fd r = .byteCount n → 0 < n) := by
  unfold embedReceive embedSend
  split_ifs with h1 h2 <;> simp_all

/-- Witness for C9: a disconnected socket maps to `CONN_CLOSE` on both
callbacks. -/
theorem embed_callbacks_translate_errors_witness :
    embedReceive (-1) 5 = .connClose ∧ embedSend (-1) 5 = .connClose :=
  (embed_callbacks_translate_errors (-1) 5).1 (by decide)

/-- Claim C10: in the interactive message loop, a line longer than
`MAX_MESSAGE_LENGTH` (256 bytes) is never written to the TLS
connection — it is skipped with a warning — so every payload the loop
passes to `wolfSSL_write` is the entered line and has length at most
256. -/
theorem loop_write_payload_bounded (line payload : List Nat) :
    (loopStep line = .send payload →
      payload.length ≤ MAX_MESSAGE_LENGTH ∧ payload = line) ∧
    (line.length > MAX_MESSAGE_LENGTH → line.take 4 ≠ quitBytes →
      loopStep line = .skipTooLong) := by
  constructor
  · intro h
    unfold loopStep at h
    by_cases h1 : line.take 4 = quitBytes
    · rw [if_pos h1] at h
      exact absurd h (by simp)
    · rw [if_neg h1] at h
      by_cases h2 : line.length > MAX_MESSAGE_LENGTH
      · rw [if_pos h2] at h
        exact absurd h (by simp)
      · rw [if_neg h2] at h
        have hp : payload = line := (LoopAction.send.inj h).symm
        exact ⟨by rw [hp]; omega, hp⟩
  · intro h1 h2
    simp [loopStep, h1, h2]

/-- Witness for C10: the concrete two-byte line is written unchanged
and within the bound. -/
theorem loop_write_payload_bounded_witness :
    ([104, 105] : List Nat).length ≤ MAX_MESSAGE_LENGTH ∧
    ([104, 105] : List Nat) = [104, 105] :=
  (loop_write_payload_bounded [104, 105] [104, 105]).1 (by decide)

end Spec2Proof
